import Mathlib

/-!
Shallow embedding of the entity-mapping core of FireO
(`src/fireo/models/model.py`): attribute change tracking, dict/entity
marshalling, key composition, and the save/update/refresh orchestration
surface, together with proofs of the specification claims.

The field-type system, the metadata registry and the persistence layer are
external collaborators of this module (they live in other files of the
repository); they are modelled from the spec (section 6 of `spec.md`) as
opaque capability-bearing values.  Everything in the `Model` namespace is
translated line by line from `model.py`.
-/

namespace FireO

/-- Modelled from the spec: an untyped document value as stored in the
document database.  The core treats values opaquely (only "is it None?"
matters to it), so composite payloads are carried as flat string data and
nested model instances as an opaque handle: the core never inspects their
contents (the field descriptors do, and those are external). -/
inductive Val where
  | vnone
  | vstr (s : String)
  | vnum (n : Int)
  | vlist (elems : List String)
  | vmap (entries : List (String × String))
  | vnested
  deriving DecidableEq, Repr

/-- Modelled from the spec (`fireo.utils.types.DumpOptions`, not under
`src/`): options for serializing an entity to a storage dict. -/
structure DumpOptions where
  ignoreUnchanged : Bool := false
  ignoreDefaultNone : Bool := false
  deriving DecidableEq, Repr

/-- Modelled from the spec (`fireo.utils.types.LoadOptions`, not under
`src/`): context flags handed to a field descriptor while decoding.  The
`model` back reference of the source is omitted: the decoders of this
development are pure functions of the raw value and the flags. -/
structure LoadOptions where
  stored : Bool := false
  merge : Bool := false
  byColumnName : Bool := false
  deriving DecidableEq, Repr

/-- Modelled from the spec: the capability flags of a field descriptor that
the core queries (`fireo.fields`, not under `src/`): identifier fields and
whether they are included in the stored document, container-like types
(map/list/nested entity) for which change detection is not implemented, and
auto-updating timestamps. -/
inductive FieldKind where
  | idField (includeInDocument : Bool)
  | textField
  | numberField
  | listField
  | mapField
  | nestedModelField
  | dateTimeField (autoUpdate : Bool)
  deriving DecidableEq, Repr

/-- Container-like field kinds: `isinstance(field, (MapField, ListField,
NestedModelField))` in `Model._is_field_unchanged`. -/
def FieldKind.isComposite : FieldKind → Bool
  | .listField => true
  | .mapField => true
  | .nestedModelField => true
  | _ => false

/-- Timestamp configured to auto-update: `isinstance(field, DateTime) and
field.raw_attributes.get('auto_update', False)`. -/
def FieldKind.isAutoUpdate : FieldKind → Bool
  | .dateTimeField b => b
  | _ => false

/-- Nested-entity field kind (`isinstance(f, NestedModelField)`). -/
def FieldKind.isNested : FieldKind → Bool
  | .nestedModelField => true
  | _ => false

/-- Modelled from the spec: a field descriptor (external `fireo.fields`
boundary).  `getValue` encodes an in-memory value for storage and may fail
(the failure is wrapped by the serializer); `fieldValue` decodes a raw
incoming value under the load context flags. -/
structure Field where
  name : String
  dbColumnName : String
  kind : FieldKind
  getValue : Val → DumpOptions → Except String Val
  fieldValue : Val → LoadOptions → Val

/-- Modelled from the spec: the per-type metadata registry (`Model._meta`,
built by `ModelMeta`, not under `src/`): the ordered declared fields, the
`(idAttributeName, idDescriptor)` pair, abstractness, and reverse
column-name lookup used for extra (schema-less) fields. -/
structure Meta where
  fieldList : List Field
  idName : String
  idField : Field
  abstract : Bool
  getFieldByColumnName : String → Option Field

/-- Entity instance state.  `attrs` is the instance attribute store holding
declared-field values and extra attributes; `parent`, `keyCache`
(`_key`), `fieldChanged` (`_field_changed`) and `extraFields`
(`_extra_fields`) mirror the instance attributes of `model.py`. -/
structure Model where
  meta : Meta
  parent : String
  collectionName : String
  attrs : List (String × Val)
  fieldChanged : List String
  extraFields : List String
  keyCache : Option String

/-- First-match association-list lookup (Python dict / attribute lookup). -/
def lookupPair (l : List (String × Val)) (k : String) : Option Val :=
  (l.find? (fun p => p.1 = k)).map Prod.snd

/-- Remove every binding of key `k`. -/
def erasePair (l : List (String × Val)) (k : String) : List (String × Val) :=
  l.filter (fun p => p.1 ≠ k)

/-- Python dict update / attribute assignment: replace any old binding. -/
def setPair (l : List (String × Val)) (k : String) (v : Val) : List (String × Val) :=
  erasePair l k ++ [(k, v)]

/-- Python `set.add` on a set represented as a duplicate-free list. -/
def insertStr (n : String) (l : List String) : List String :=
  if n ∈ l then l else n :: l

/-- Names of the declared schema: `set(self._meta.field_list)`. -/
def Meta.declaredNames (meta : Meta) : List String :=
  meta.fieldList.map Field.name

/-- Attribute read (`getattr(self, name)`); a declared attribute that was
never assigned reads as None, per the class-attribute defaults the
metaclass installs. -/
def Model.getattr (m : Model) (name : String) : Val :=
  (lookupPair m.attrs name).getD Val.vnone

/-- `Model.__setattr__` (model.py lines 526-530): ordinary attribute
assignment; a declared field name is added to `_field_changed`. -/
def Model.setattrM (m : Model) (name : String) (v : Val) : Model :=
  if name ∈ m.meta.declaredNames then
    { m with fieldChanged := insertStr name m.fieldChanged,
             attrs := setPair m.attrs name v }
  else
    { m with attrs := setPair m.attrs name v }

/-- `Model._set_orig_attr` (model.py lines 532-536): bookkeeping-only
assignment used for stored loads; a non-schema name other than `_id` is
recorded as an extra attribute, and nothing is marked changed. -/
def Model.setOrigAttr (m : Model) (name : String) (v : Val) : Model :=
  if name ≠ "_id" ∧ name ∉ m.meta.declaredNames then
    { m with extraFields := insertStr name m.extraFields,
             attrs := setPair m.attrs name v }
  else
    { m with attrs := setPair m.attrs name v }

/-- `delattr(self, extra_field)` in `populate_from_doc_dict`. -/
def Model.delattr (m : Model) (name : String) : Model :=
  { m with attrs := erasePair m.attrs name }

/-- `Model._is_field_unchanged` (model.py lines 549-572).  Despite its
name it returns `true` when the field must be treated as changed /
force-included: the name is tracked in `_field_changed`; or the field is
container-like with a non-None current value (change detection not
implemented); or it is an auto-updating timestamp. -/
def Model.isFieldUnchanged (m : Model) (fieldName : String) : Bool :=
  if fieldName ∈ m.fieldChanged then
    true
  else
    match m.meta.fieldList.find? (fun f => f.name = fieldName) with
    | none => false
    | some field =>
      if m.getattr fieldName ≠ Val.vnone ∧ field.kind.isComposite then
        true
      else if field.kind.isAutoUpdate then
        true
      else
        false

/-- Error raised when encoding a field value fails: the serializer wraps
the descriptor failure together with the attribute path
(`ModelSerializingWrappedError`). -/
inductive SerializeError where
  | wrapped (fieldName : String) (cause : String)
  deriving DecidableEq, Repr

/-- `IDField` exclusion in `to_db_dict` (model.py lines 195-198): skip an
identifier-type field unless it is explicitly included in the document. -/
def Field.excludedId (f : Field) : Bool :=
  match f.kind with
  | .idField includeInDocument => !includeInDocument
  | _ => false

/-- One `to_db_dict` loop iteration, as a pure decision: `none` means the
field contributes nothing (skipped by a filter, or its encoded value is
None while `ignore_default_none` is set and the field does not count as
changed); `some v` means `result[field.db_column_name] = v`.  Encoding
failure is handled separately by `toDbDictGo`. -/
def fieldEmits (m : Model) (opts : DumpOptions) (f : Field) : Option Val :=
  if f.excludedId then none
  else if opts.ignoreUnchanged ∧ ¬m.isFieldUnchanged f.name then none
  else
    match f.getValue (m.getattr f.name) opts with
    | .error _ => none
    | .ok v =>
      if v ≠ Val.vnone ∨ ¬opts.ignoreDefaultNone ∨ m.isFieldUnchanged f.name then
        some v
      else
        none

/-- Loop of `Model.to_db_dict` (model.py lines 188-218) over the remaining
declared fields, carrying the result dict built so far. -/
def toDbDictGo (m : Model) (opts : DumpOptions) :
    List Field → List (String × Val) → Except SerializeError (List (String × Val))
  | [], acc => .ok acc
  | f :: fs, acc =>
    if f.excludedId then
      toDbDictGo m opts fs acc
    else if opts.ignoreUnchanged ∧ ¬m.isFieldUnchanged f.name then
      toDbDictGo m opts fs acc
    else
      match f.getValue (m.getattr f.name) opts with
      | .error e => .error (.wrapped f.name e)
      | .ok v =>
        if v ≠ Val.vnone ∨ ¬opts.ignoreDefaultNone ∨ m.isFieldUnchanged f.name then
          toDbDictGo m opts fs (setPair acc f.dbColumnName v)
        else
          toDbDictGo m opts fs acc

/-- `Model.to_db_dict` (model.py lines 188-218). -/
def Model.toDbDict (m : Model) (opts : DumpOptions) :
    Except SerializeError (List (String × Val)) :=
  toDbDictGo m opts m.meta.fieldList []

/-- `NotImplementedError` raised by `populate_from_doc_dict` when the
incoming dict has keys outside the declared schema and column-name lookup
was not requested. -/
inductive PopulateError where
  | unknownFields (names : List String)
  deriving DecidableEq, Repr

/-- Incoming keys not in the declared schema:
`set(doc_dict) - set(self._meta.field_list)`. -/
def unknownKeys (m : Model) (doc : List (String × Val)) : List String :=
  (doc.map Prod.fst).filter (fun k => k ∉ m.meta.declaredNames)

/-- One iteration of the population loop of `populate_from_doc_dict`
(model.py lines 241-261) for one field. -/
def populateStep (stored merge byColumnName : Bool) (doc : List (String × Val))
    (m : Model) (f : Field) : Model :=
  let fieldNameInDict := if byColumnName then f.dbColumnName else f.name
  let rawValue := (lookupPair doc fieldNameInDict).getD Val.vnone
  let hasValue := m.getattr f.name ≠ Val.vnone
  if (lookupPair doc fieldNameInDict).isSome ∨ (¬merge ∧ hasValue) then
    let value := f.fieldValue rawValue ⟨stored, merge, byColumnName⟩
    if stored then m.setOrigAttr f.name value else m.setattrM f.name value
  else
    m

/-- Step 1 of `populate_from_doc_dict` (model.py lines 222-226): when not
merging, remove every tracked extra attribute outside the schema and clear
the extra-attribute set. -/
def populatePrologue (m : Model) (merge : Bool) : Model :=
  if merge then m
  else
    let oldExtraFields := m.extraFields.filter (fun n => n ∉ m.meta.declaredNames)
    let md := oldExtraFields.foldl Model.delattr m
    { md with extraFields := [] }

/-- The extra descriptors resolved by reverse column-name lookup
(model.py lines 234-239); keys the registry declines are skipped. -/
def resolvedExtraFields (m : Model) (doc : List (String × Val)) : List Field :=
  (unknownKeys m doc).filterMap m.meta.getFieldByColumnName

/-- Prologue followed by the population loop of `populate_from_doc_dict`
over the declared plus resolved extra fields (model.py lines 241-261). -/
def populateFold (m : Model) (doc : List (String × Val))
    (stored merge byColumnName : Bool) : Model :=
  let m1 := populatePrologue m merge
  (m1.meta.fieldList ++ resolvedExtraFields m doc).foldl
    (populateStep stored merge byColumnName doc) m1

/-- Successful final state of `populate_from_doc_dict`: the population
loop, then the change-set clear of a non-merge stored load (model.py
lines 263-266). -/
def populateOk (m : Model) (doc : List (String × Val))
    (stored merge byColumnName : Bool) : Model :=
  let m2 := populateFold m doc stored merge byColumnName
  if ¬merge ∧ stored then { m2 with fieldChanged := [] } else m2

/-- `Model.populate_from_doc_dict` (model.py lines 220-266).  The source
mutates `self` in place and raises; here the successful final state is
returned in `Except` (the partially mutated state of an in-place failure
is not observed by any claim, so the prologue's effect on the error path
is discarded). -/
def Model.populateFromDocDict (m : Model) (doc : List (String × Val))
    (stored merge byColumnName : Bool) : Except PopulateError Model :=
  if unknownKeys m doc ≠ [] ∧ ¬byColumnName then
    .error (.unknownFields (unknownKeys m doc))
  else
    .ok (populateOk m doc stored merge byColumnName)

/-- The identifier segment used by the `key` property: `self._id` reads
the declared identifier attribute and asks the descriptor for a value
(model.py lines 310-340); a RequiredField failure (`.error`) or a
non-string value (TypeError in `'/'.join`) makes the `key` property fall
back to the placeholder. -/
def Model.idSeg (m : Model) : String :=
  match m.meta.idField.getValue (m.getattr m.meta.idName) {} with
  | .ok (Val.vstr s) => s
  | _ => "@temp_doc_id"

/-- Resolvability of the identifier: `true` exactly when the `key`
property would use a real identifier segment rather than the placeholder. -/
def Model.idResolvable (m : Model) : Bool :=
  match m.meta.idField.getValue (m.getattr m.meta.idName) {} with
  | .ok (Val.vstr _) => true
  | _ => false

/-- Write-back side effect of the `_id` getter: if the raw identifier
attribute is None and the descriptor produced a value, the produced value
is assigned onto the instance (ordinary assignment, so it is marked
changed). -/
def Model.idWriteBack (m : Model) : Model :=
  match m.meta.idField.getValue (m.getattr m.meta.idName) {} with
  | .ok v =>
    if m.getattr m.meta.idName = Val.vnone ∧ v ≠ Val.vnone then
      m.setattrM m.meta.idName v
    else
      m
  | .error _ => m

/-- `'/'.join([p, c, i])`, i.e. `p ++ "/" ++ c ++ "/" ++ i`. -/
def mkKey3 (p c i : String) : String :=
  String.mk (p.data ++ '/' :: c.data ++ '/' :: i.data)

/-- `k[1:] if k[0] == '/' else k` (the argument is never empty at the call
sites: it always contains two separators). -/
def stripLeadingSlash (s : String) : String :=
  if s.data.head? = some '/' then String.mk s.data.tail else s

/-- Value computed by the `key` property on a cache miss (model.py lines
380-387). -/
def Model.keyCompute (m : Model) : String :=
  stripLeadingSlash (mkKey3 m.parent m.collectionName m.idSeg)

/-- The `key` property (model.py lines 376-387) together with the `_id`
write-back side effect it can have on a cache miss. -/
def Model.keyState (m : Model) : String × Model :=
  if m.keyCache.getD "" ≠ "" then
    (m.keyCache.getD "", m)
  else
    (m.keyCompute, m.idWriteBack)

/-- The string value of the `key` property. -/
def Model.key (m : Model) : String :=
  m.keyState.1

/-- The `key` property as the Python expression `self.key` seen by `is
None` checks: it always evaluates to a string, never to `None`. -/
def Model.keyOpt (m : Model) : Option String :=
  some m.key

/-- `Model._set_key` (model.py lines 389-395). -/
def Model.setKey (m : Model) (docId : String) : Model :=
  { m with keyCache := some (stripLeadingSlash (mkKey3 m.parent m.collectionName docId)) }

/-- The `_id` setter (model.py lines 342-374): assign the identifier
attribute (ordinary assignment) and, only for a non-empty id, update the
composed key. -/
def Model.idSetter (m : Model) (docId : String) : Model :=
  let m1 := m.setattrM m.meta.idName (Val.vstr docId)
  if docId ≠ "" then m1.setKey docId else m1

/-- Modelled from the spec (`fireo.utils.utils.get_id`, not under `src/`):
the identifier is the last segment of the key. -/
def getId (key : String) : String :=
  ((key.splitOn "/").getLast?).getD ""

/-- Modelled from the spec (`fireo.utils.utils.get_parent_doc`, not under
`src/`): the parent path is the key without its last two segments. -/
def getParentDoc (key : String) : String :=
  String.intercalate "/" ((key.splitOn "/").dropLast.dropLast)

/-- `InvalidKey` error of `Model.update`. -/
inductive UpdateError where
  | invalidKey
  deriving DecidableEq, Repr

/-- Substring containment on character lists (Python's `in` on strings). -/
def containsSub (pat : List Char) : List Char → Bool
  | [] => pat.isEmpty
  | c :: rest => pat.isPrefixOf (c :: rest) || containsSub pat rest

/-- `'@temp_doc_id' in key` (Python substring containment). -/
def hasPlaceholder (s : String) : Bool :=
  containsSub "@temp_doc_id".data s.data

/-- Body of `Model.update` after the local `key` has been resolved
(model.py lines 505-517).  `keyLocal` is the local variable `key`: it is
always a string by this point (the `key` property never returns `None`),
which the `some` wrapper in `keyLocalOpt` records; the `is None` check of
the source is the `none` branches. -/
def updateBody (m1 : Model) (keyLocal : String) : Except UpdateError Model :=
  let keyLocalOpt : Option String := some keyLocal
  if (match keyLocalOpt with
      | some kv => !hasPlaceholder kv
      | none => false) then
    let m2 := { m1 with parent := getParentDoc keyLocal }
    .ok (m2.idSetter (getId keyLocal))
  else if keyLocalOpt.isNone ∧ hasPlaceholder m1.key then
    .error .invalidKey
  else
    .ok m1

/-- `Model.update` (model.py lines 465-517).  A successful result is the
entity state handed to the persistence collaborator's `_update`
operation (the delegation itself is external). -/
def Model.update (m0 : Model) (key? : Option String) : Except UpdateError Model :=
  let km : String × Model :=
    match key? with
    | none => m0.keyState
    | some s => if s = "" then m0.keyState else (s, m0)
  updateBody km.2 km.1

/-- `ValueError('Model must have key to refresh')` of `Model.refresh`. -/
inductive RefreshError where
  | missingKey
  deriving DecidableEq, Repr

/-- `Model.refresh` (model.py lines 519-524).  A successful result is the
entity state handed to the persistence collaborator's `_refresh`
operation. -/
def Model.refresh (m0 : Model) : Except RefreshError Model :=
  let km := m0.keyState
  if (some km.1 : Option String).isNone then
    .error .missingKey
  else
    .ok km.2

/-- Errors of `Model.__init__`: unexpected keyword arguments, and
instantiating an abstract model. -/
inductive InitError where
  | unexpectedKwargs (names : List String)
  | abstractInstantiate
  deriving DecidableEq, Repr

/-- One iteration of the nested-model default loop of `Model.__init__`
(model.py lines 153-164): a nested-entity field absent from the keyword
arguments is assigned a fresh nested instance by ordinary assignment; a
dict-valued keyword argument for it is deserialized and assigned.  Nested
instances are opaque handles here. -/
def initNestedStep (kwargs : List (String × Val)) (m : Model) (f : Field) : Model :=
  if f.kind.isNested then
    match lookupPair kwargs f.name with
    | none => m.setattrM f.name Val.vnested
    | some (Val.vmap _) => m.setattrM f.name Val.vnested
    | some _ => m
  else
    m

/-- Successfully constructed instance: empty change and extra sets, the
keyword arguments assigned by ordinary assignment, then the nested-model
default loop. -/
def initOk (meta : Meta) (parent : String) (collectionName : String)
    (kwargs : List (String × Val)) : Model :=
  let m0 : Model :=
    { meta, parent, collectionName, attrs := [],
      fieldChanged := [], extraFields := [], keyCache := none }
  let m1 := kwargs.foldl (fun acc kv => acc.setattrM kv.1 kv.2) m0
  meta.fieldList.foldl (initNestedStep kwargs) m1

/-- `Model.__init__` (model.py lines 131-164).  Positional arguments are
not representable in this embedding (their check always passes). -/
def Model.init (meta : Meta) (parent : String) (collectionName : String)
    (kwargs : List (String × Val)) : Except InitError Model :=
  let unexpected := (kwargs.map Prod.fst).filter (fun k => k ∉ meta.declaredNames)
  if unexpected ≠ [] then
    .error (.unexpectedKwargs unexpected)
  else if meta.abstract then
    .error .abstractInstantiate
  else
    .ok (initOk meta parent collectionName kwargs)

/-! ### Concrete fixtures

Concrete schemas, entities and documents used to evaluate the operations
on explicit inputs.  The descriptors are the simplest inhabitants of the
external field-descriptor boundary: identity encode/decode that never
fails. -/

/-- Modelled from the spec: a descriptor encode that returns the value
unchanged and never fails. -/
def passEncode : Val → DumpOptions → Except String Val := fun v _ => .ok v

/-- Modelled from the spec: a descriptor decode that returns the raw value
unchanged. -/
def passDecode : Val → LoadOptions → Val := fun v _ => v

/-- An identifier field not included in the stored document (the default
for identifier descriptors). -/
def dummyIdField : Field := ⟨"id", "id", .idField false, passEncode, passDecode⟩

def c1Meta : Meta := ⟨[dummyIdField], "id", dummyIdField, false, fun _ => none⟩

/-- Entity that was never persisted: no identifier, so its composed key
carries the placeholder segment. -/
def c1Entity : Model := ⟨c1Meta, "", "user", [], [], [], none⟩

def c2NameField : Field := ⟨"name", "name", .textField, passEncode, passDecode⟩

def c2ProfileField : Field := ⟨"profile", "profile", .mapField, passEncode, passDecode⟩

def c2Meta : Meta :=
  ⟨[c2NameField, c2ProfileField], "id", dummyIdField, false, fun _ => none⟩

def c2Entity : Model := ⟨c2Meta, "", "users", [], [], [], none⟩

/-- Stored document carrying a non-absent composite (map) value. -/
def c2Doc : List (String × Val) := [("profile", Val.vmap [("k", "loaded")])]

/-- The entity state after the full stored load of `c2Doc`. -/
def c2EntityLoaded : Model :=
  match c2Entity.populateFromDocDict c2Doc true false false with
  | .ok m' => m'
  | .error _ => c2Entity

def c3NameField : Field := ⟨"name", "name", .textField, passEncode, passDecode⟩

def c3Meta : Meta := ⟨[c3NameField], "id", dummyIdField, false, fun _ => none⟩

def c3Entity : Model := ⟨c3Meta, "", "users", [], [], [], none⟩

/-- Entity with a previously changed attribute, a tracked extra attribute
and its stored value, about to be merged into. -/
def c3MergeBase : Model :=
  ⟨c3Meta, "", "users", [("x1", Val.vstr "v")], ["age"], ["x1"], none⟩

/-- The entity state after a stored merge of a dict not mentioning the
extra attribute. -/
def c3MergeResult : Model :=
  match c3MergeBase.populateFromDocDict [("name", Val.vstr "s")] true true false with
  | .ok m' => m'
  | .error _ => c3MergeBase

/-- The entity state after a non-stored merge of a dict assigning the
declared `name` attribute. -/
def c3MergeNonStored : Model :=
  match c3Entity.populateFromDocDict [("name", Val.vstr "x")] false true false with
  | .ok m' => m'
  | .error _ => c3Entity

def c4TagsField : Field := ⟨"tags", "tags", .mapField, passEncode, passDecode⟩

def c4Meta : Meta := ⟨[c4TagsField], "id", dummyIdField, false, fun _ => none⟩

/-- Entity holding a non-absent composite value that was never explicitly
assigned (empty change set). -/
def c4Entity : Model := ⟨c4Meta, "", "things", [("tags", Val.vmap [])], [], [], none⟩

def c5NameField : Field := ⟨"name", "name", .textField, passEncode, passDecode⟩

def c5Meta : Meta := ⟨[c5NameField], "id", dummyIdField, false, fun _ => none⟩

/-- Entity whose `name` was explicitly changed but still holds an absent
value. -/
def c5Entity : Model := ⟨c5Meta, "", "users", [], ["name"], [], none⟩

/-- Serialization of `c5Entity` with both ignore options requested. -/
def c5Dump : List (String × Val) :=
  match c5Entity.toDbDict ⟨true, true⟩ with
  | .ok r => r
  | .error _ => []

def c6Meta : Meta := ⟨[], "id", dummyIdField, false, fun _ => none⟩

/-- Entity with an empty parent and no resolvable identifier. -/
def c6Entity : Model := ⟨c6Meta, "", "users", [], [], [], none⟩

def c7NameField : Field := ⟨"name", "name", .textField, passEncode, passDecode⟩

/-- Ad hoc pass-through descriptor the registry resolves for the storage
column `nick`. -/
def c7NickField : Field := ⟨"nick", "nick", .textField, passEncode, passDecode⟩

def c7Meta : Meta :=
  ⟨[c7NameField], "id", dummyIdField, false,
    fun k => if k = "nick" then some c7NickField else none⟩

def c7Entity : Model := ⟨c7Meta, "", "users", [], [], [], none⟩

/-- Document keyed by storage column names, containing a column outside
the declared schema. -/
def c7Doc : List (String × Val) := [("nick", Val.vstr "N")]

/-- The entity state after the stored column-name load of `c7Doc`. -/
def c7Stored : Model :=
  match c7Entity.populateFromDocDict c7Doc true false true with
  | .ok m' => m'
  | .error _ => c7Entity

def c9IdField : Field := ⟨"id", "id", .idField false, passEncode, passDecode⟩

def c9NameField : Field := ⟨"name", "name", .textField, passEncode, passDecode⟩

def c9Meta : Meta := ⟨[c9IdField, c9NameField], "id", c9IdField, false, fun _ => none⟩

def c9Entity : Model :=
  ⟨c9Meta, "", "users", [("name", Val.vstr "Bob")], ["name"], [], none⟩

/-- Serialization of `c9Entity` with default options. -/
def c9Dump : List (String × Val) :=
  match c9Entity.toDbDict ⟨false, false⟩ with
  | .ok r => r
  | .error _ => []

def c10ProfileField : Field :=
  ⟨"profile", "profile", .nestedModelField, passEncode, passDecode⟩

def c10NameField : Field := ⟨"name", "name", .textField, passEncode, passDecode⟩

def c10Meta : Meta :=
  ⟨[c10ProfileField, c10NameField], "id", dummyIdField, false, fun _ => none⟩

/-- A freshly constructed entity of a type declaring a nested-entity
field, with no constructor arguments. -/
def c10Entity : Model :=
  match Model.init c10Meta "" "things" [] with
  | .ok m => m
  | .error _ => ⟨c10Meta, "", "things", [], [], [], none⟩

/-! ### Association-list and change-set lemmas -/

theorem lookupPair_nil (k : String) : lookupPair [] k = none := rfl

theorem lookupPair_cons (p : String × Val) (l : List (String × Val)) (k : String) :
    lookupPair (p :: l) k = if p.1 = k then some p.2 else lookupPair l k := by
  by_cases h : p.1 = k <;> simp [lookupPair, List.find?, h]

theorem lookupPair_erasePair (l : List (String × Val)) (k n : String) :
    lookupPair (erasePair l k) n = if n = k then none else lookupPair l n := by
  induction l with
  | nil => by_cases h : n = k <;> simp [erasePair, lookupPair, h]
  | cons p t ih =>
    have hfc : erasePair (p :: t) k =
        if p.1 ≠ k then p :: erasePair t k else erasePair t k := by
      simp [erasePair, List.filter_cons]
    by_cases hpk : p.1 = k
    · rw [hfc, if_neg (by simp [hpk]), ih]
      by_cases hnk : n = k
      · simp [hnk]
      · have hpn : ¬p.1 = n := fun h => hnk (by rw [← h, hpk])
        rw [if_neg hnk, if_neg hnk, lookupPair_cons, if_neg hpn]
    · rw [hfc, if_pos (by simp [hpk]), lookupPair_cons, lookupPair_cons, ih]
      by_cases hpn : p.1 = n
      · have hnk : ¬n = k := fun h => hpk (by rw [hpn, h])
        simp [hpn, hnk]
      · simp [hpn]

theorem lookupPair_append (l₁ l₂ : List (String × Val)) (k : String) :
    lookupPair (l₁ ++ l₂) k =
      match lookupPair l₁ k with
      | some v => some v
      | none => lookupPair l₂ k := by
  induction l₁ with
  | nil => simp [lookupPair_nil]
  | cons p t ih =>
    by_cases h : p.1 = k <;> simp [List.cons_append, lookupPair_cons, h, ih]

theorem lookupPair_setPair (l : List (String × Val)) (k n : String) (v : Val) :
    lookupPair (setPair l k v) n = if n = k then some v else lookupPair l n := by
  rw [setPair, lookupPair_append, lookupPair_erasePair]
  by_cases h : n = k
  · simp [h, lookupPair_cons]
  · rw [if_neg h, if_neg h]
    cases hl : lookupPair l n
    · rw [lookupPair_cons, if_neg (fun hkn : k = n => h hkn.symm)]
      rfl
    · rfl

theorem lookupPair_isSome_iff_mem_keys (l : List (String × Val)) (k : String) :
    (lookupPair l k).isSome = true ↔ k ∈ l.map Prod.fst := by
  induction l with
  | nil => simp [lookupPair_nil]
  | cons p t ih =>
    by_cases h : p.1 = k
    · simp [lookupPair_cons, h, ih]
    · simp only [lookupPair_cons, if_neg h, List.map_cons, List.mem_cons, ih]
      constructor
      · exact Or.inr
      · rintro (hk | hk)
        · exact absurd hk.symm h
        · exact hk

theorem mem_setPair_self (l : List (String × Val)) (k : String) (v : Val) :
    (k, v) ∈ setPair l k v := by
  simp [setPair]

theorem mem_setPair_of_ne (l : List (String × Val)) (k c : String) (v w : Val)
    (hm : (c, w) ∈ l) (hne : c ≠ k) : (c, w) ∈ setPair l k v := by
  simp only [setPair, List.mem_append]
  exact Or.inl (by simp [erasePair, List.mem_filter, hm, hne])

theorem mem_of_mem_setPair (l : List (String × Val)) (k : String) (v : Val)
    (p : String × Val) (hm : p ∈ setPair l k v) : p ∈ l ∨ p = (k, v) := by
  simp only [setPair, List.mem_append, List.mem_singleton] at hm
  rcases hm with h | h
  · exact Or.inl (List.mem_of_mem_filter h)
  · exact Or.inr h

theorem keys_setPair_not_mem (l : List (String × Val)) (k c : String) (v : Val)
    (hnm : c ∉ l.map Prod.fst) (hne : c ≠ k) :
    c ∉ (setPair l k v).map Prod.fst := by
  intro hmem
  simp only [setPair, List.map_append, List.mem_append, List.map_cons, List.map_nil,
    List.mem_singleton] at hmem
  rcases hmem with h | h
  · rcases List.mem_map.mp h with ⟨p, hp, hpc⟩
    exact hnm (List.mem_map.mpr ⟨p, List.mem_of_mem_filter hp, hpc⟩)
  · exact hne h

theorem mem_insertStr_self (n : String) (l : List String) : n ∈ insertStr n l := by
  by_cases h : n ∈ l <;> simp [insertStr, h]

theorem mem_insertStr_of_mem (n a : String) (l : List String)
    (h : a ∈ l) : a ∈ insertStr n l := by
  by_cases hn : n ∈ l <;> simp [insertStr, hn, h]

theorem mem_insertStr_iff (n a : String) (l : List String) :
    a ∈ insertStr n l ↔ a = n ∨ a ∈ l := by
  by_cases hn : n ∈ l
  · simp only [insertStr, if_pos hn]
    constructor
    · exact Or.inr
    · rintro (rfl | h)
      · exact hn
      · exact h
  · simp [insertStr, if_neg hn]

/-! ### Attribute-assignment effect lemmas -/

theorem attrs_setattrM (m : Model) (name : String) (v : Val) :
    (m.setattrM name v).attrs = setPair m.attrs name v := by
  by_cases h : name ∈ m.meta.declaredNames <;> simp [Model.setattrM, h]

theorem meta_setattrM (m : Model) (name : String) (v : Val) :
    (m.setattrM name v).meta = m.meta := by
  by_cases h : name ∈ m.meta.declaredNames <;> simp [Model.setattrM, h]

theorem extraFields_setattrM (m : Model) (name : String) (v : Val) :
    (m.setattrM name v).extraFields = m.extraFields := by
  by_cases h : name ∈ m.meta.declaredNames <;> simp [Model.setattrM, h]

theorem fieldChanged_setattrM (m : Model) (name : String) (v : Val) :
    (m.setattrM name v).fieldChanged =
      if name ∈ m.meta.declaredNames then insertStr name m.fieldChanged
      else m.fieldChanged := by
  by_cases h : name ∈ m.meta.declaredNames <;> simp [Model.setattrM, h]

theorem getattr_setattrM (m : Model) (name : String) (v : Val) (n : String) :
    (m.setattrM name v).getattr n = if n = name then v else m.getattr n := by
  by_cases h : n = name <;>
    simp [Model.getattr, attrs_setattrM, lookupPair_setPair, h]

theorem attrs_setOrigAttr (m : Model) (name : String) (v : Val) :
    (m.setOrigAttr name v).attrs = setPair m.attrs name v := by
  by_cases h : name ≠ "_id" ∧ name ∉ m.meta.declaredNames <;> simp [Model.setOrigAttr, h]

theorem meta_setOrigAttr (m : Model) (name : String) (v : Val) :
    (m.setOrigAttr name v).meta = m.meta := by
  by_cases h : name ≠ "_id" ∧ name ∉ m.meta.declaredNames <;> simp [Model.setOrigAttr, h]

theorem fieldChanged_setOrigAttr (m : Model) (name : String) (v : Val) :
    (m.setOrigAttr name v).fieldChanged = m.fieldChanged := by
  by_cases h : name ≠ "_id" ∧ name ∉ m.meta.declaredNames <;> simp [Model.setOrigAttr, h]

theorem extraFields_setOrigAttr (m : Model) (name : String) (v : Val) :
    (m.setOrigAttr name v).extraFields =
      if name ≠ "_id" ∧ name ∉ m.meta.declaredNames then insertStr name m.extraFields
      else m.extraFields := by
  by_cases h : name ≠ "_id" ∧ name ∉ m.meta.declaredNames <;> simp [Model.setOrigAttr, h]

theorem getattr_setOrigAttr (m : Model) (name : String) (v : Val) (n : String) :
    (m.setOrigAttr name v).getattr n = if n = name then v else m.getattr n := by
  by_cases h : n = name <;>
    simp [Model.getattr, attrs_setOrigAttr, lookupPair_setPair, h]

/-! ### Generic fold lemmas over the field lists -/

theorem foldl_pres {β : Type} {P : Model → Prop} (step : Model → β → Model)
    (h : ∀ acc f, P acc → P (step acc f)) :
    ∀ (l : List β) (m : Model), P m → P (l.foldl step m) := by
  intro l
  induction l with
  | nil => intro m hm; exact hm
  | cons f t ih => intro m hm; exact ih (step m f) (h m f hm)

theorem foldl_establish_inv {β : Type} {I P : Model → Prop}
    (step : Model → β → Model) (f : β)
    (hIpres : ∀ acc g, I acc → I (step acc g))
    (hest : ∀ acc, I acc → P (step acc f))
    (hPpres : ∀ acc g, P acc → P (step acc g)) :
    ∀ (l : List β) (m : Model), I m → f ∈ l → P (l.foldl step m) := by
  intro l
  induction l with
  | nil => intro m _ hm; cases hm
  | cons g t ih =>
    intro m hI hm
    rcases List.mem_cons.mp hm with rfl | hmem
    · exact foldl_pres step hPpres t (step m f) (hest m hI)
    · exact ih (step m g) (hIpres m g hI) hmem

/-! ### Effect lemmas for one population-loop step -/

theorem populateStep_cases (stored merge byColumnName : Bool) (doc : List (String × Val))
    (m : Model) (f : Field) :
    populateStep stored merge byColumnName doc m f = m ∨
    (∃ v, populateStep stored merge byColumnName doc m f = m.setOrigAttr f.name v ∧ stored = true) ∨
    (∃ v, populateStep stored merge byColumnName doc m f = m.setattrM f.name v ∧ stored = false) := by
  unfold populateStep
  by_cases hc : (lookupPair doc (if byColumnName then f.dbColumnName else f.name)).isSome = true ∨
      (¬merge = true ∧ m.getattr f.name ≠ Val.vnone)
  · rw [if_pos hc]
    cases stored
    · exact Or.inr (Or.inr ⟨_, rfl, rfl⟩)
    · exact Or.inr (Or.inl ⟨_, rfl, rfl⟩)
  · rw [if_neg hc]
    exact Or.inl rfl

theorem populateStep_meta (stored merge byColumnName : Bool) (doc : List (String × Val))
    (m : Model) (f : Field) :
    (populateStep stored merge byColumnName doc m f).meta = m.meta := by
  rcases populateStep_cases stored merge byColumnName doc m f with h | ⟨v, h, _⟩ | ⟨v, h, _⟩ <;>
    rw [h]
  · rw [meta_setOrigAttr]
  · rw [meta_setattrM]

theorem fieldChanged_mono_setattrM (m : Model) (name : String) (v : Val) (n : String)
    (hn : n ∈ m.fieldChanged) : n ∈ (m.setattrM name v).fieldChanged := by
  rw [fieldChanged_setattrM]
  by_cases hd : name ∈ m.meta.declaredNames
  · rw [if_pos hd]; exact mem_insertStr_of_mem _ _ _ hn
  · rw [if_neg hd]; exact hn

theorem populateStep_fieldChanged_mono (stored merge byColumnName : Bool)
    (doc : List (String × Val)) (m : Model) (f : Field) (n : String)
    (hn : n ∈ m.fieldChanged) :
    n ∈ (populateStep stored merge byColumnName doc m f).fieldChanged := by
  rcases populateStep_cases stored merge byColumnName doc m f with h | ⟨v, h, _⟩ | ⟨v, h, _⟩
  · rw [h]; exact hn
  · rw [h, fieldChanged_setOrigAttr]; exact hn
  · rw [h]; exact fieldChanged_mono_setattrM m f.name v n hn

theorem populateStep_fieldChanged_stored (merge byColumnName : Bool)
    (doc : List (String × Val)) (m : Model) (f : Field) :
    (populateStep true merge byColumnName doc m f).fieldChanged = m.fieldChanged := by
  rcases populateStep_cases true merge byColumnName doc m f with h | ⟨v, h, _⟩ | ⟨v, h, hfalse⟩
  · rw [h]
  · rw [h, fieldChanged_setOrigAttr]
  · cases hfalse

theorem populateStep_extraFields_mono (stored merge byColumnName : Bool)
    (doc : List (String × Val)) (m : Model) (f : Field) (n : String)
    (hn : n ∈ m.extraFields) :
    n ∈ (populateStep stored merge byColumnName doc m f).extraFields := by
  rcases populateStep_cases stored merge byColumnName doc m f with h | ⟨v, h, _⟩ | ⟨v, h, _⟩
  · rw [h]; exact hn
  · rw [h, extraFields_setOrigAttr]
    by_cases hd : f.name ≠ "_id" ∧ f.name ∉ m.meta.declaredNames
    · rw [if_pos hd]; exact mem_insertStr_of_mem _ _ _ hn
    · rw [if_neg hd]; exact hn
  · rw [h, extraFields_setattrM]; exact hn

theorem populateStep_attrs_isSome_mono (stored merge byColumnName : Bool)
    (doc : List (String × Val)) (m : Model) (f : Field) (n : String)
    (hn : (lookupPair m.attrs n).isSome = true) :
    (lookupPair (populateStep stored merge byColumnName doc m f).attrs n).isSome = true := by
  rcases populateStep_cases stored merge byColumnName doc m f with h | ⟨v, h, _⟩ | ⟨v, h, _⟩
  · rw [h]; exact hn
  · rw [h, attrs_setOrigAttr, lookupPair_setPair]
    by_cases he : n = f.name <;> simp [he, hn]
  · rw [h, attrs_setattrM, lookupPair_setPair]
    by_cases he : n = f.name <;> simp [he, hn]

/-! ### Serializer lemmas -/

/-- Pure result of the `to_db_dict` loop in terms of the per-field
decisions. -/
def emitsFold (m : Model) (opts : DumpOptions) (fs : List Field)
    (acc : List (String × Val)) : List (String × Val) :=
  fs.foldl
    (fun a f =>
      match fieldEmits m opts f with
      | some v => setPair a f.dbColumnName v
      | none => a)
    acc

theorem fieldEmits_of_excluded (m : Model) (opts : DumpOptions) (f : Field)
    (h : f.excludedId = true) : fieldEmits m opts f = none := by
  simp [fieldEmits, h]

theorem toDbDictGo_ok_eq_emitsFold (m : Model) (opts : DumpOptions) :
    ∀ (fs : List Field) (acc r : List (String × Val)),
      toDbDictGo m opts fs acc = .ok r → r = emitsFold m opts fs acc := by
  intro fs
  induction fs with
  | nil =>
    intro acc r h
    simp only [toDbDictGo] at h
    cases h
    rfl
  | cons f t ih =>
    intro acc r h
    simp only [toDbDictGo] at h
    by_cases hex : f.excludedId = true
    · rw [if_pos hex] at h
      rw [emitsFold, List.foldl_cons, fieldEmits_of_excluded m opts f hex]
      exact ih acc r h
    · rw [if_neg hex] at h
      by_cases hskip : opts.ignoreUnchanged = true ∧ ¬m.isFieldUnchanged f.name = true
      · rw [if_pos hskip] at h
        have hnone : fieldEmits m opts f = none := by
          rw [fieldEmits, if_neg (by simp [hex]), if_pos hskip]
        rw [emitsFold, List.foldl_cons, hnone]
        exact ih acc r h
      · rw [if_neg hskip] at h
        cases hgv : f.getValue (m.getattr f.name) opts with
        | error e => rw [hgv] at h; cases h
        | ok v =>
          rw [hgv] at h
          replace h :
              (if v ≠ Val.vnone ∨ ¬opts.ignoreDefaultNone = true ∨
                  m.isFieldUnchanged f.name = true then
                toDbDictGo m opts t (setPair acc f.dbColumnName v)
              else toDbDictGo m opts t acc) = Except.ok r := h
          by_cases hinc : v ≠ Val.vnone ∨ ¬opts.ignoreDefaultNone = true ∨
              m.isFieldUnchanged f.name = true
          · rw [if_pos hinc] at h
            have hsome : fieldEmits m opts f = some v := by
              rw [fieldEmits, if_neg (by simp [hex]), if_neg hskip, hgv]
              exact if_pos hinc
            rw [emitsFold, List.foldl_cons, hsome]
            exact ih _ r h
          · rw [if_neg hinc] at h
            have hnone : fieldEmits m opts f = none := by
              rw [fieldEmits, if_neg (by simp [hex]), if_neg hskip, hgv]
              exact if_neg hinc
            rw [emitsFold, List.foldl_cons, hnone]
            exact ih acc r h

theorem emitsFold_mem_source (m : Model) (opts : DumpOptions) :
    ∀ (fs : List Field) (acc : List (String × Val)) (p : String × Val),
      p ∈ emitsFold m opts fs acc →
      p ∈ acc ∨ ∃ f ∈ fs, p.1 = f.dbColumnName ∧ fieldEmits m opts f = some p.2 := by
  intro fs
  induction fs with
  | nil => intro acc p hp; exact Or.inl hp
  | cons f t ih =>
    intro acc p hp
    rw [emitsFold, List.foldl_cons] at hp
    cases hem : fieldEmits m opts f with
    | none =>
      rw [hem] at hp
      rcases ih acc p hp with h | ⟨g, hg, hcol, hgem⟩
      · exact Or.inl h
      · exact Or.inr ⟨g, List.mem_cons_of_mem f hg, hcol, hgem⟩
    | some v =>
      rw [hem] at hp
      rcases ih (setPair acc f.dbColumnName v) p hp with h | ⟨g, hg, hcol, hgem⟩
      · rcases mem_of_mem_setPair acc f.dbColumnName v p h with h' | h'
        · exact Or.inl h'
        · refine Or.inr ⟨f, List.mem_cons_self f t, ?_, ?_⟩
          · rw [h']
          · rw [h', hem]
      · exact Or.inr ⟨g, List.mem_cons_of_mem f hg, hcol, hgem⟩

theorem emitsFold_keys_not_mem (m : Model) (opts : DumpOptions) :
    ∀ (fs : List Field) (acc : List (String × Val)) (c : String),
      c ∉ acc.map Prod.fst →
      (∀ f ∈ fs, f.dbColumnName = c → fieldEmits m opts f = none) →
      c ∉ (emitsFold m opts fs acc).map Prod.fst := by
  intro fs
  induction fs with
  | nil => intro acc c hacc _; exact hacc
  | cons f t ih =>
    intro acc c hacc hall
    rw [emitsFold, List.foldl_cons]
    cases hem : fieldEmits m opts f with
    | none =>
      exact ih acc c hacc (fun g hg => hall g (List.mem_cons_of_mem f hg))
    | some v =>
      have hcol : f.dbColumnName ≠ c := by
        intro hc
        rw [hall f (List.mem_cons_self f t) hc] at hem
        cases hem
      exact ih (setPair acc f.dbColumnName v) c
        (keys_setPair_not_mem acc f.dbColumnName c v hacc (fun hc => hcol hc.symm))
        (fun g hg => hall g (List.mem_cons_of_mem f hg))

theorem emitsFold_mem_preserved (m : Model) (opts : DumpOptions) :
    ∀ (fs : List Field) (acc : List (String × Val)) (c : String) (v : Val),
      (c, v) ∈ acc →
      (∀ f ∈ fs, f.dbColumnName ≠ c) →
      (c, v) ∈ emitsFold m opts fs acc := by
  intro fs
  induction fs with
  | nil => intro acc c v hacc _; exact hacc
  | cons f t ih =>
    intro acc c v hacc hall
    rw [emitsFold, List.foldl_cons]
    cases hem : fieldEmits m opts f with
    | none => exact ih acc c v hacc (fun g hg => hall g (List.mem_cons_of_mem f hg))
    | some w =>
      exact ih (setPair acc f.dbColumnName w) c v
        (mem_setPair_of_ne acc f.dbColumnName c w v hacc
          (fun hc => hall f (List.mem_cons_self f t) hc.symm))
        (fun g hg => hall g (List.mem_cons_of_mem f hg))

theorem emitsFold_mem_of_emits (m : Model) (opts : DumpOptions) :
    ∀ (fs : List Field) (acc : List (String × Val)) (f : Field) (v : Val),
      f ∈ fs →
      fieldEmits m opts f = some v →
      (fs.map Field.dbColumnName).Nodup →
      (f.dbColumnName, v) ∈ emitsFold m opts fs acc := by
  intro fs
  induction fs with
  | nil => intro acc f v hf; cases hf
  | cons g t ih =>
    intro acc f v hf hem hnd
    rw [List.map_cons, List.nodup_cons] at hnd
    rw [emitsFold, List.foldl_cons]
    rcases List.mem_cons.mp hf with rfl | hft
    · rw [hem]
      refine emitsFold_mem_preserved m opts t (setPair acc f.dbColumnName v)
        f.dbColumnName v (mem_setPair_self acc f.dbColumnName v) ?_
      intro h ht hcol
      exact hnd.1 (hcol ▸ List.mem_map.mpr ⟨h, ht, rfl⟩)
    · cases hgem : fieldEmits m opts g with
      | none => exact ih acc f v hft hem hnd.2
      | some w => exact ih (setPair acc g.dbColumnName w) f v hft hem hnd.2

/-- Unique lookup of a declared field by name when the schema names are
duplicate-free. -/
theorem find?_field_by_name (l : List Field) (f : Field)
    (hnd : (l.map Field.name).Nodup) (hf : f ∈ l) :
    l.find? (fun g => g.name = f.name) = some f := by
  induction l with
  | nil => cases hf
  | cons g t ih =>
    rw [List.map_cons, List.nodup_cons] at hnd
    rcases List.mem_cons.mp hf with rfl | hft
    · exact List.find?_cons_of_pos t (by simp)
    · have hne : ¬g.name = f.name := by
        intro h
        exact hnd.1 (h ▸ List.mem_map.mpr ⟨f, hft, rfl⟩)
      rw [List.find?_cons_of_neg t (by simp [hne])]
      exact ih hnd.2 hft

/-- Characterization of `Model._is_field_unchanged` on a declared field. -/
theorem isFieldUnchanged_iff (m : Model) (name : String) (f : Field)
    (hfind : m.meta.fieldList.find? (fun g => g.name = name) = some f) :
    m.isFieldUnchanged name = true ↔
      name ∈ m.fieldChanged ∨
      (f.kind.isComposite = true ∧ m.getattr name ≠ Val.vnone) ∨
      f.kind.isAutoUpdate = true := by
  unfold Model.isFieldUnchanged
  by_cases hmem : name ∈ m.fieldChanged
  · simp [hmem]
  · rw [if_neg hmem, hfind]
    show (if m.getattr name ≠ Val.vnone ∧ f.kind.isComposite = true then true
      else if f.kind.isAutoUpdate = true then true else false) = true ↔ _
    by_cases hcomp : m.getattr name ≠ Val.vnone ∧ f.kind.isComposite = true
    · rw [if_pos hcomp]
      simp [hmem, hcomp.1, hcomp.2]
    · rw [if_neg hcomp]
      by_cases hauto : f.kind.isAutoUpdate = true
      · simp [hmem, hauto]
      · rw [if_neg hauto]
        constructor
        · intro h; cases h
        · rintro (h | ⟨h1, h2⟩ | h)
          · exact absurd h hmem
          · exact absurd ⟨h2, h1⟩ hcomp
          · exact absurd h hauto

/-! ### Population lemmas -/

theorem populate_ok_of (m : Model) (doc : List (String × Val)) (s mg b : Bool)
    (h : ¬(unknownKeys m doc ≠ [] ∧ ¬b = true)) :
    m.populateFromDocDict doc s mg b = .ok (populateOk m doc s mg b) := by
  rw [Model.populateFromDocDict, if_neg h]

theorem populate_error_of (m : Model) (doc : List (String × Val)) (s mg b : Bool)
    (h : unknownKeys m doc ≠ [] ∧ ¬b = true) :
    m.populateFromDocDict doc s mg b = .error (.unknownFields (unknownKeys m doc)) := by
  rw [Model.populateFromDocDict, if_pos h]

theorem populate_ok_elim (m : Model) (doc : List (String × Val)) (s mg b : Bool)
    (m' : Model) (h : m.populateFromDocDict doc s mg b = .ok m') :
    m' = populateOk m doc s mg b := by
  unfold Model.populateFromDocDict at h
  by_cases hg : unknownKeys m doc ≠ [] ∧ ¬b = true
  · rw [if_pos hg] at h; cases h
  · rw [if_neg hg] at h; cases h; rfl

theorem meta_delattr (m : Model) (n : String) : (m.delattr n).meta = m.meta := rfl

theorem fieldChanged_delattr (m : Model) (n : String) :
    (m.delattr n).fieldChanged = m.fieldChanged := rfl

theorem populatePrologue_merge (m : Model) : populatePrologue m true = m := by
  simp [populatePrologue]

theorem meta_populatePrologue (m : Model) (mg : Bool) :
    (populatePrologue m mg).meta = m.meta := by
  by_cases hm : mg = true
  · rw [hm, populatePrologue_merge]
  · have hfold : ∀ (l : List String) (x : Model), x.meta = m.meta →
        (l.foldl Model.delattr x).meta = m.meta := by
      intro l
      induction l with
      | nil => intro x hx; exact hx
      | cons a t ih => intro x hx; exact ih (x.delattr a) (by rw [meta_delattr]; exact hx)
    simp only [populatePrologue, if_neg (by simp [hm] : ¬(mg = true))]
    exact hfold _ m rfl

theorem fieldChanged_populatePrologue (m : Model) (mg : Bool) :
    (populatePrologue m mg).fieldChanged = m.fieldChanged := by
  by_cases hm : mg = true
  · rw [hm, populatePrologue_merge]
  · have hfold : ∀ (l : List String) (x : Model), x.fieldChanged = m.fieldChanged →
        (l.foldl Model.delattr x).fieldChanged = m.fieldChanged := by
      intro l
      induction l with
      | nil => intro x hx; exact hx
      | cons a t ih =>
        intro x hx; exact ih (x.delattr a) (by rw [fieldChanged_delattr]; exact hx)
    simp only [populatePrologue, if_neg (by simp [hm] : ¬(mg = true))]
    exact hfold _ m rfl

theorem meta_populateOk (m : Model) (doc : List (String × Val)) (s mg b : Bool) :
    (populateOk m doc s mg b).meta = m.meta := by
  have hfold : (((populatePrologue m mg).meta.fieldList ++ resolvedExtraFields m doc).foldl
      (populateStep s mg b doc) (populatePrologue m mg)).meta = m.meta := by
    refine @foldl_pres Field (fun x => x.meta = m.meta) (populateStep s mg b doc)
      ?_ _ _ (meta_populatePrologue m mg)
    intro acc f hacc
    rw [populateStep_meta]; exact hacc
  unfold populateOk
  by_cases hc : ¬mg = true ∧ s = true
  · rw [if_pos hc]; exact hfold
  · rw [if_neg hc]; exact hfold

theorem fieldChanged_populateOk_replace (m : Model) (doc : List (String × Val)) (b : Bool) :
    (populateOk m doc true false b).fieldChanged = [] := by
  unfold populateOk
  rw [if_pos (by simp)]

theorem populateOk_merge (m : Model) (doc : List (String × Val)) (s b : Bool) :
    populateOk m doc s true b =
      (m.meta.fieldList ++ resolvedExtraFields m doc).foldl
        (populateStep s true b doc) m := by
  unfold populateOk populateFold
  rw [if_neg (by simp), populatePrologue_merge]

/-- A resolved extra descriptor is in the population loop's field list. -/
theorem mem_resolvedExtraFields (m : Model) (doc : List (String × Val))
    (k : String) (f : Field) (hk : k ∈ unknownKeys m doc)
    (hreg : m.meta.getFieldByColumnName k = some f) :
    f ∈ resolvedExtraFields m doc :=
  List.mem_filterMap.mpr ⟨k, hk, hreg⟩

/-- The population loop assigns a field whose lookup key is present in the
incoming dict (column-name lookup). -/
theorem populateStep_assigns (stored mg : Bool) (doc : List (String × Val))
    (acc : Model) (f : Field)
    (hdoc : (lookupPair doc f.dbColumnName).isSome = true) :
    populateStep stored mg true doc acc f =
      (if stored = true then Model.setOrigAttr else Model.setattrM) acc f.name
        (f.fieldValue ((lookupPair doc f.dbColumnName).getD Val.vnone)
          ⟨stored, mg, true⟩) := by
  unfold populateStep
  rw [if_pos]
  · cases stored <;> simp
  · simp only [if_pos rfl]
    exact Or.inl hdoc

/-- The population loop assigns a field whose lookup key (column name or
attribute name, per `by_column_name`) is present in the incoming dict. -/
theorem populateStep_assigns_present (stored mg b : Bool) (doc : List (String × Val))
    (acc : Model) (f : Field)
    (hdoc : (lookupPair doc (if b then f.dbColumnName else f.name)).isSome = true) :
    populateStep stored mg b doc acc f =
      (if stored = true then Model.setOrigAttr else Model.setattrM) acc f.name
        (f.fieldValue ((lookupPair doc (if b then f.dbColumnName else f.name)).getD Val.vnone)
          ⟨stored, mg, b⟩) := by
  unfold populateStep
  rw [if_pos (Or.inl hdoc)]
  cases stored <;> simp

/-- Any assignment of the population loop marks only declared names as
changed: the changed set grows only by names of the declared schema. -/
theorem populateStep_fieldChanged_subset (s mg b : Bool) (doc : List (String × Val))
    (M : Meta) (acc : Model) (g : Field) (hmeta : acc.meta = M) (n : String)
    (hn : n ∈ (populateStep s mg b doc acc g).fieldChanged) :
    n ∈ acc.fieldChanged ∨ n ∈ M.declaredNames := by
  rcases populateStep_cases s mg b doc acc g with hcase | ⟨v, hcase, _⟩ | ⟨v, hcase, _⟩
  · rw [hcase] at hn
    exact Or.inl hn
  · rw [hcase, fieldChanged_setOrigAttr] at hn
    exact Or.inl hn
  · rw [hcase, fieldChanged_setattrM] at hn
    by_cases hd : g.name ∈ acc.meta.declaredNames
    · rw [if_pos hd] at hn
      rcases (mem_insertStr_iff _ _ _).mp hn with rfl | hn'
      · exact Or.inr (by rw [← hmeta]; exact hd)
      · exact Or.inl hn'
    · rw [if_neg hd] at hn
      exact Or.inl hn

/-! ### Key-composition lemmas -/

theorem strip_slash_cons (l : List Char) :
    stripLeadingSlash (String.mk ('/' :: l)) = String.mk l := by
  simp [stripLeadingSlash]

theorem strip_mk_append_suffix (l s : List Char) (hl : l ≠ []) :
    ∃ pre, (stripLeadingSlash (String.mk (l ++ s))).data = pre ++ s := by
  cases l with
  | nil => cases hl rfl
  | cons x xs =>
    by_cases hx : x = '/'
    · exact ⟨xs, by simp [stripLeadingSlash, hx]⟩
    · exact ⟨x :: xs, by simp [stripLeadingSlash, hx]⟩

theorem key_of_no_cache (m : Model) (h : m.keyCache.getD "" = "") :
    m.key = m.keyCompute := by
  rw [Model.key, Model.keyState, if_neg (by simp [h])]

theorem idSeg_of_resolved (m : Model) (s : String)
    (h : m.meta.idField.getValue (m.getattr m.meta.idName) {} = .ok (Val.vstr s)) :
    m.idSeg = s := by
  unfold Model.idSeg
  rw [h]

theorem idSeg_of_unresolvable (m : Model) (h : m.idResolvable = false) :
    m.idSeg = "@temp_doc_id" := by
  unfold Model.idSeg
  unfold Model.idResolvable at h
  revert h
  cases hg : m.meta.idField.getValue (m.getattr m.meta.idName) {} with
  | error e => intro h; rfl
  | ok v =>
    intro h
    cases v with
    | vstr s => simp at h
    | vnone => rfl
    | vnum n => rfl
    | vlist l => rfl
    | vmap l => rfl
    | vnested => rfl

theorem keyCompute_parent_empty (m : Model) (h : m.parent = "") :
    m.keyCompute = String.mk (m.collectionName.data ++ '/' :: m.idSeg.data) := by
  unfold Model.keyCompute mkKey3
  rw [h]
  show stripLeadingSlash
    (String.mk ([] ++ ('/' :: m.collectionName.data) ++ '/' :: m.idSeg.data)) = _
  rw [List.nil_append, List.cons_append, strip_slash_cons]

/-! ### Update and refresh lemmas -/

theorem refresh_eq (m : Model) : m.refresh = .ok m.keyState.2 := by
  unfold Model.refresh
  simp

theorem updateBody_isOk (m1 : Model) (kl : String) : (updateBody m1 kl).isOk = true := by
  unfold updateBody
  by_cases hp : hasPlaceholder kl = true
  · rw [if_neg (by simp [hp]), if_neg (by simp)]
    rfl
  · rw [if_pos (by simp [hp])]
    rfl

theorem update_isOk (m : Model) (k? : Option String) : (m.update k?).isOk = true := by
  unfold Model.update
  exact updateBody_isOk _ _

/-! ### Further serializer and constructor lemmas -/

theorem isFieldUnchanged_of_mem (m : Model) (n : String) (h : n ∈ m.fieldChanged) :
    m.isFieldUnchanged n = true := by
  unfold Model.isFieldUnchanged
  rw [if_pos h]

theorem fieldEmits_passes (m : Model) (opts : DumpOptions) (f : Field) (v : Val)
    (h : fieldEmits m opts f = some v) :
    f.excludedId = false ∧
    (opts.ignoreUnchanged = true → m.isFieldUnchanged f.name = true) ∧
    f.getValue (m.getattr f.name) opts = .ok v := by
  unfold fieldEmits at h
  by_cases hex : f.excludedId = true
  · rw [if_pos (by simp [hex])] at h; cases h
  · rw [if_neg (by simp [hex] : ¬(f.excludedId = true))] at h
    by_cases hskip : opts.ignoreUnchanged = true ∧ ¬m.isFieldUnchanged f.name = true
    · rw [if_pos hskip] at h; cases h
    · rw [if_neg hskip] at h
      refine ⟨by simp [hex], ?_, ?_⟩
      · intro hif
        by_contra hch
        exact hskip ⟨hif, hch⟩
      · revert h
        cases hgv : f.getValue (m.getattr f.name) opts with
        | error e => intro h; cases h
        | ok w =>
          intro h
          replace h : (if w ≠ Val.vnone ∨ ¬opts.ignoreDefaultNone = true ∨
              m.isFieldUnchanged f.name = true then some w else none) = some v := h
          by_cases hinc : w ≠ Val.vnone ∨ ¬opts.ignoreDefaultNone = true ∨
              m.isFieldUnchanged f.name = true
          · rw [if_pos hinc] at h
            cases h
            rfl
          · rw [if_neg hinc] at h
            cases h

theorem fieldEmits_eq_of_ok (m : Model) (opts : DumpOptions) (f : Field) (v : Val)
    (hex : f.excludedId = false)
    (hfil : ¬(opts.ignoreUnchanged = true ∧ ¬m.isFieldUnchanged f.name = true))
    (hok : f.getValue (m.getattr f.name) opts = .ok v) :
    fieldEmits m opts f =
      if v ≠ Val.vnone ∨ ¬opts.ignoreDefaultNone = true ∨
          m.isFieldUnchanged f.name = true then
        some v
      else none := by
  unfold fieldEmits
  rw [if_neg (by simp [hex] : ¬(f.excludedId = true)), if_neg hfil, hok]

theorem toDbDict_ok_eq (m : Model) (opts : DumpOptions) (r : List (String × Val))
    (h : m.toDbDict opts = .ok r) : r = emitsFold m opts m.meta.fieldList [] :=
  toDbDictGo_ok_eq_emitsFold m opts m.meta.fieldList [] r h

theorem init_ok_elim (meta : Meta) (parent collectionName : String)
    (kwargs : List (String × Val)) (m : Model)
    (h : Model.init meta parent collectionName kwargs = .ok m) :
    m = initOk meta parent collectionName kwargs := by
  unfold Model.init at h
  by_cases h1 : (kwargs.map Prod.fst).filter (fun k => k ∉ meta.declaredNames) ≠ []
  · rw [if_pos h1] at h; cases h
  · rw [if_neg h1] at h
    by_cases h2 : meta.abstract = true
    · rw [if_pos h2] at h; cases h
    · rw [if_neg h2] at h; cases h; rfl

theorem initNestedStep_cases (kwargs : List (String × Val)) (m : Model) (f : Field) :
    initNestedStep kwargs m f = m ∨
    initNestedStep kwargs m f = m.setattrM f.name Val.vnested := by
  unfold initNestedStep
  by_cases hn : f.kind.isNested = true
  · rw [if_pos hn]
    cases hkw : lookupPair kwargs f.name with
    | none => exact Or.inr rfl
    | some v => cases v <;> first | exact Or.inl rfl | exact Or.inr rfl
  · rw [if_neg hn]
    exact Or.inl rfl

theorem initNestedStep_meta (kwargs : List (String × Val)) (m : Model) (f : Field) :
    (initNestedStep kwargs m f).meta = m.meta := by
  rcases initNestedStep_cases kwargs m f with h | h
  · rw [h]
  · rw [h, meta_setattrM]

theorem initNestedStep_fieldChanged_mono (kwargs : List (String × Val))
    (m : Model) (f : Field) (n : String) (hn : n ∈ m.fieldChanged) :
    n ∈ (initNestedStep kwargs m f).fieldChanged := by
  rcases initNestedStep_cases kwargs m f with h | h
  · rw [h]; exact hn
  · rw [h]; exact fieldChanged_mono_setattrM m f.name Val.vnested n hn

theorem initNestedStep_assigns (kwargs : List (String × Val)) (m : Model) (f : Field)
    (hnested : f.kind.isNested = true) (hkw : lookupPair kwargs f.name = none) :
    initNestedStep kwargs m f = m.setattrM f.name Val.vnested := by
  unfold initNestedStep
  rw [if_pos hnested, hkw]

theorem attrs_populateOk (m : Model) (doc : List (String × Val)) (s mg b : Bool) :
    (populateOk m doc s mg b).attrs = (populateFold m doc s mg b).attrs := by
  unfold populateOk
  by_cases h : ¬mg = true ∧ s = true
  · rw [if_pos h]
  · rw [if_neg h]

theorem extraFields_populateOk (m : Model) (doc : List (String × Val)) (s mg b : Bool) :
    (populateOk m doc s mg b).extraFields = (populateFold m doc s mg b).extraFields := by
  unfold populateOk
  by_cases h : ¬mg = true ∧ s = true
  · rw [if_pos h]
  · rw [if_neg h]

theorem mkKey3_data_split (p c i : String) :
    mkKey3 p c i = String.mk ((p.data ++ '/' :: c.data ++ ['/']) ++ i.data) := by
  unfold mkKey3
  exact congrArg String.mk (by simp)

/-! ### Claim theorems -/

/-- C1: the claim states that `update()` with no explicit key fails with
the invalid-key error whenever the composed key still contains the
placeholder segment.  The code never raises: `update` always delegates,
because its `InvalidKey` branch additionally requires the local key to be
`None`, which is impossible after `key = self.key` since the `key`
property always returns a string.  In particular the never-persisted
`c1Entity`, whose key carries the placeholder, is delegated unchanged
instead of failing. -/
theorem c1_update_never_raises_invalid_key :
    (∀ (m : Model) (k : Option String), (m.update k).isOk = true) ∧
    hasPlaceholder c1Entity.key = true ∧
    c1Entity.update none = Except.ok c1Entity :=
  ⟨update_isOk, by decide, rfl⟩

/-- C4: `_is_field_unchanged(name)` returns true exactly when the name is
tracked in `changedAttributes`, or the field is container-like (map, list
or nested entity) with a non-absent current value, or it is a timestamp
configured to auto-update on every write; in every other case it returns
false. -/
theorem c4_is_field_unchanged_spec (m : Model) (f : Field)
    (hfind : m.meta.fieldList.find? (fun g => g.name = f.name) = some f) :
    m.isFieldUnchanged f.name = true ↔
      f.name ∈ m.fieldChanged ∨
      (f.kind.isComposite = true ∧ m.getattr f.name ≠ Val.vnone) ∨
      f.kind.isAutoUpdate = true :=
  isFieldUnchanged_iff m f.name f hfind

/-- C4 witness: the never-assigned composite field of `c4Entity`, holding
a non-absent value, is treated as changed by the predicate. -/
theorem c4_is_field_unchanged_spec_witness :
    c4Entity.isFieldUnchanged "tags" = true :=
  (c4_is_field_unchanged_spec c4Entity c4TagsField rfl).mpr
    (Or.inr (Or.inl ⟨rfl, by decide⟩))

/-- C8: every entity has a resolvable key — the `key` property always
produces a string (falling back to the placeholder segment), so the
missing-key failure of `refresh` cannot fire — and `refresh` delegates to
the persistence collaborator without raising. -/
theorem c8_refresh_always_delegates (m : Model) :
    m.keyOpt ≠ none ∧ m.refresh = Except.ok m.keyState.2 :=
  ⟨by simp [Model.keyOpt], refresh_eq m⟩

/-- C9: for every entity and every dump option, `to_db_dict` never
includes an identifier-typed field that is not explicitly marked for
inclusion in the stored document. -/
theorem c9_to_db_dict_skips_id_field (m : Model) (opts : DumpOptions)
    (r : List (String × Val)) (f : Field)
    (hnd : (m.meta.fieldList.map Field.dbColumnName).Nodup)
    (hf : f ∈ m.meta.fieldList)
    (hid : f.kind = FieldKind.idField false)
    (hdd : m.toDbDict opts = .ok r) :
    f.dbColumnName ∉ r.map Prod.fst := by
  have hr := toDbDict_ok_eq m opts r hdd
  subst hr
  refine emitsFold_keys_not_mem m opts m.meta.fieldList [] f.dbColumnName (by simp) ?_
  intro g hg hcol
  have hgf : g = f := List.inj_on_of_nodup_map hnd hg hf hcol
  subst hgf
  exact fieldEmits_of_excluded m opts g (by unfold Field.excludedId; rw [hid]; rfl)

/-- C9 witness: the identifier column is absent from the dump of
`c9Entity`, whose identifier field is not marked for inclusion. -/
theorem c9_to_db_dict_skips_id_field_witness :
    "id" ∉ c9Dump.map Prod.fst :=
  c9_to_db_dict_skips_id_field c9Entity ⟨false, false⟩ c9Dump c9IdField
    (by decide) (List.mem_cons_self _ _) rfl rfl

/-- C10: constructing an instance of a concrete type declaring a
nested-entity field, without supplying a value for that field, assigns a
fresh nested instance by ordinary attribute assignment, which adds the
field's name to `changedAttributes`; the freshly constructed entity
therefore starts with a non-empty changed set. -/
theorem c10_nested_default_marks_changed (meta : Meta)
    (parent collectionName : String) (kwargs : List (String × Val))
    (m : Model) (f : Field)
    (hinit : Model.init meta parent collectionName kwargs = .ok m)
    (hf : f ∈ meta.fieldList)
    (hnested : f.kind.isNested = true)
    (hkw : lookupPair kwargs f.name = none) :
    f.name ∈ m.fieldChanged ∧ m.fieldChanged ≠ [] := by
  have hm := init_ok_elim meta parent collectionName kwargs m hinit
  subst hm
  have hmetaFold : ∀ (kws : List (String × Val)) (x : Model), x.meta = meta →
      (kws.foldl (fun acc kv => acc.setattrM kv.1 kv.2) x).meta = meta := by
    intro kws
    induction kws with
    | nil => intro x hx; exact hx
    | cons a t ih => intro x hx; exact ih _ (by rw [meta_setattrM]; exact hx)
  have hmem : f.name ∈ (initOk meta parent collectionName kwargs).fieldChanged := by
    show f.name ∈ (meta.fieldList.foldl (initNestedStep kwargs) _).fieldChanged
    refine @foldl_establish_inv Field (fun x => x.meta = meta)
      (fun x => f.name ∈ x.fieldChanged) (initNestedStep kwargs) f
      ?_ ?_ ?_ meta.fieldList _ (hmetaFold kwargs _ rfl) hf
    · intro acc g hacc
      rw [initNestedStep_meta]
      exact hacc
    · intro acc hacc
      rw [initNestedStep_assigns kwargs acc f hnested hkw, fieldChanged_setattrM,
        if_pos (by
          rw [hacc]
          exact List.mem_map.mpr ⟨f, hf, rfl⟩)]
      exact mem_insertStr_self _ _
    · intro acc g hacc
      exact initNestedStep_fieldChanged_mono kwargs acc g f.name hacc
  exact ⟨hmem, List.ne_nil_of_mem hmem⟩

/-- C10 witness: the freshly constructed `c10Entity` has its nested field
marked changed, so its changed set is non-empty although the caller
assigned nothing. -/
theorem c10_nested_default_marks_changed_witness :
    "profile" ∈ c10Entity.fieldChanged ∧ c10Entity.fieldChanged ≠ [] :=
  c10_nested_default_marks_changed c10Meta "" "things" [] c10Entity c10ProfileField
    rfl (List.mem_cons_self _ _) rfl rfl

/-- C2 counterexample: loading `c2Doc` into `c2Entity` with
`stored=true, merge=false` leaves an empty changed set, yet the subsequent
`to_db_dict(ignore_unchanged=true)` is not empty: it contains exactly the
composite value loaded from the document (which is non-absent and not a
default), so the result is neither empty nor default-only. -/
theorem c2_stored_load_counterexample :
    (c2Entity.populateFromDocDict c2Doc true false false).map
        (fun m' => (m'.fieldChanged, m'.toDbDict ⟨true, false⟩)) =
      Except.ok ([], Except.ok [("profile", Val.vmap [("k", "loaded")])]) ∧
    ([("profile", Val.vmap [("k", "loaded")])] : List (String × Val)) ≠ [] ∧
    lookupPair c2Doc "profile" = some (Val.vmap [("k", "loaded")]) :=
  ⟨rfl, by decide, rfl⟩

/-- C2 (amended): after a successful full stored load
(`stored=true, merge=false`) the changed set is empty, and under
`ignore_unchanged` every entry of `to_db_dict` comes from a
composite-typed field holding a non-absent value or from an auto-updating
timestamp field (the by-design force-inclusions); for schemas without
such fields the result is empty. -/
theorem c2_stored_load_clears_changes (m : Model) (doc : List (String × Val))
    (b : Bool) (m' : Model)
    (hnd : (m.meta.fieldList.map Field.name).Nodup)
    (hpop : m.populateFromDocDict doc true false b = .ok m') :
    m'.fieldChanged = [] ∧
    ∀ (opts : DumpOptions) (r : List (String × Val)) (p : String × Val),
      opts.ignoreUnchanged = true →
      m'.toDbDict opts = .ok r →
      p ∈ r →
      ∃ f ∈ m'.meta.fieldList, p.1 = f.dbColumnName ∧
        ((f.kind.isComposite = true ∧ m'.getattr f.name ≠ Val.vnone) ∨
          f.kind.isAutoUpdate = true) := by
  have hm' := populate_ok_elim m doc true false b m' hpop
  subst hm'
  refine ⟨fieldChanged_populateOk_replace m doc b, ?_⟩
  intro opts r p hopt hdd hp
  have hr := toDbDict_ok_eq _ opts r hdd
  subst hr
  rcases emitsFold_mem_source _ opts _ [] p hp with h | ⟨f, hf, hcol, hem⟩
  · cases h
  · have hpass := fieldEmits_passes _ opts f p.2 hem
    have hch := hpass.2.1 hopt
    have hmeta : (populateOk m doc true false b).meta = m.meta :=
      meta_populateOk m doc true false b
    have hfmem : f ∈ m.meta.fieldList := by rw [← hmeta]; exact hf
    have hfind : (populateOk m doc true false b).meta.fieldList.find?
        (fun g => g.name = f.name) = some f := by
      rw [hmeta]
      exact find?_field_by_name _ f hnd hfmem
    rcases (isFieldUnchanged_iff (populateOk m doc true false b) f.name f hfind).mp
        hch with hmem | hcomp | hauto
    · rw [fieldChanged_populateOk_replace m doc b] at hmem
      cases hmem
    · exact ⟨f, hf, hcol, Or.inl hcomp⟩
    · exact ⟨f, hf, hcol, Or.inr hauto⟩

/-- C2 witness: the stored load of `c2Doc` leaves `c2EntityLoaded` with an
empty changed set. -/
theorem c2_stored_load_clears_changes_witness :
    c2EntityLoaded.fieldChanged = [] :=
  (c2_stored_load_clears_changes c2Entity c2Doc false c2EntityLoaded
    (by decide) rfl).1

/-- C3 counterexample: merging a dict into a fresh entity with
`merge=true` and `stored=false` (as `merge_with_dict` does) assigns via
ordinary attribute assignment and therefore adds the assigned attribute
to the changed set: `changedAttributes` is not left untouched by every
merge. -/
theorem c3_merge_counterexample :
    c3Entity.fieldChanged = [] ∧
    (c3Entity.populateFromDocDict [("name", Val.vstr "x")] false true false).map
        Model.fieldChanged = Except.ok ["name"] :=
  ⟨rfl, rfl⟩

/-- C3 (amended): a merge never clears previously changed attributes and
never removes tracked extra attributes or stored attribute values; a
stored merge leaves the changed set exactly unchanged; a non-stored merge
adds each declared attribute it assigns to the changed set, and only
declared names are ever added (so a registry-resolved extra attribute
assigned by the merge is not marked changed). -/
theorem c3_merge_preserves_state (m : Model) (doc : List (String × Val))
    (s b : Bool) (m' : Model)
    (hpop : m.populateFromDocDict doc s true b = .ok m') :
    (∀ n ∈ m.fieldChanged, n ∈ m'.fieldChanged) ∧
    (s = true → m'.fieldChanged = m.fieldChanged) ∧
    (∀ n ∈ m.extraFields, n ∈ m'.extraFields) ∧
    (∀ n, (lookupPair m.attrs n).isSome = true →
      (lookupPair m'.attrs n).isSome = true) ∧
    (s = false → ∀ f ∈ m.meta.fieldList,
      (lookupPair doc (if b then f.dbColumnName else f.name)).isSome = true →
      f.name ∈ m'.fieldChanged) ∧
    (∀ n ∈ m'.fieldChanged, n ∈ m.fieldChanged ∨ n ∈ m.meta.declaredNames) := by
  have hm' := populate_ok_elim m doc s true b m' hpop
  subst hm'
  rw [populateOk_merge]
  refine ⟨?_, ?_, ?_, ?_, ?_, ?_⟩
  · intro n hn
    exact @foldl_pres Field (fun x => n ∈ x.fieldChanged) _
      (fun acc f hacc => populateStep_fieldChanged_mono s true b doc acc f n hacc)
      _ m hn
  · intro hs
    subst hs
    exact @foldl_pres Field (fun x => x.fieldChanged = m.fieldChanged) _
      (fun acc f hacc => by
        show (populateStep true true b doc acc f).fieldChanged = m.fieldChanged
        rw [populateStep_fieldChanged_stored]
        exact hacc)
      _ m rfl
  · intro n hn
    exact @foldl_pres Field (fun x => n ∈ x.extraFields) _
      (fun acc f hacc => populateStep_extraFields_mono s true b doc acc f n hacc)
      _ m hn
  · intro n hn
    exact @foldl_pres Field (fun x => (lookupPair x.attrs n).isSome = true) _
      (fun acc f hacc => populateStep_attrs_isSome_mono s true b doc acc f n hacc)
      _ m hn
  · intro hs f hf hdoc
    subst hs
    refine @foldl_establish_inv Field (fun x => x.meta = m.meta)
      (fun x => f.name ∈ x.fieldChanged) (populateStep false true b doc) f
      ?_ ?_ ?_ _ _ rfl (List.mem_append_left _ hf)
    · intro acc g hacc
      rw [populateStep_meta]
      exact hacc
    · intro acc hacc
      rw [populateStep_assigns_present false true b doc acc f hdoc, if_neg (by simp),
        fieldChanged_setattrM,
        if_pos (by
          rw [hacc]
          exact List.mem_map.mpr ⟨f, hf, rfl⟩)]
      exact mem_insertStr_self _ _
    · intro acc g hacc
      exact populateStep_fieldChanged_mono false true b doc acc g f.name hacc
  · have hQ := @foldl_pres Field
      (fun x => x.meta = m.meta ∧
        ∀ n ∈ x.fieldChanged, n ∈ m.fieldChanged ∨ n ∈ m.meta.declaredNames)
      (populateStep s true b doc)
      (fun acc g hacc =>
        ⟨by rw [populateStep_meta]; exact hacc.1,
          fun n hn => by
            rcases populateStep_fieldChanged_subset s true b doc m.meta acc g hacc.1
              n hn with hmem | hdecl
            · exact hacc.2 n hmem
            · exact Or.inr hdecl⟩)
      (m.meta.fieldList ++ resolvedExtraFields m doc) m ⟨rfl, fun n hn => Or.inl hn⟩
    exact hQ.2

/-- C3 witness: a stored merge into `c3MergeBase` keeps the previously
changed attribute, the exact changed set, the tracked extra attribute and
its stored value; a non-stored merge into the fresh `c3Entity` marks the
declared attribute it assigns, and only declared names joined its changed
set. -/
theorem c3_merge_preserves_state_witness :
    "age" ∈ c3MergeResult.fieldChanged ∧
    c3MergeResult.fieldChanged = c3MergeBase.fieldChanged ∧
    "x1" ∈ c3MergeResult.extraFields ∧
    (lookupPair c3MergeResult.attrs "x1").isSome = true ∧
    "name" ∈ c3MergeNonStored.fieldChanged ∧
    ("name" ∈ c3Entity.fieldChanged ∨ "name" ∈ c3Meta.declaredNames) := by
  have h := c3_merge_preserves_state c3MergeBase [("name", Val.vstr "s")] true false
    c3MergeResult rfl
  have h2 := c3_merge_preserves_state c3Entity [("name", Val.vstr "x")] false false
    c3MergeNonStored rfl
  exact ⟨h.1 "age" (by decide), h.2.1 rfl, h.2.2.1 "x1" (by decide),
    h.2.2.2.1 "x1" (by decide),
    h2.2.2.2.2.1 rfl c3NameField (List.mem_cons_self _ _) rfl,
    h2.2.2.2.2.2 "name"
      (h2.2.2.2.2.1 rfl c3NameField (List.mem_cons_self _ _) rfl)⟩

/-- C5: in `to_db_dict`, a field that passes the identifier and
ignore-unchanged filters and encodes successfully is included in the
result exactly unless its encoded value is absent while
`ignore_default_none` is requested and the field does not count as
changed; in particular an explicitly changed field is always included
even when its encoded value is absent. -/
theorem c5_to_db_dict_inclusion (m : Model) (opts : DumpOptions) (f : Field)
    (v : Val) (r : List (String × Val))
    (hnd : (m.meta.fieldList.map Field.dbColumnName).Nodup)
    (hf : f ∈ m.meta.fieldList)
    (hex : f.excludedId = false)
    (hfil : opts.ignoreUnchanged = true → m.isFieldUnchanged f.name = true)
    (hok : f.getValue (m.getattr f.name) opts = .ok v)
    (hdd : m.toDbDict opts = .ok r) :
    ((f.dbColumnName, v) ∈ r ↔
      (v ≠ Val.vnone ∨ ¬opts.ignoreDefaultNone = true ∨
        m.isFieldUnchanged f.name = true)) ∧
    (f.name ∈ m.fieldChanged → (f.dbColumnName, v) ∈ r) := by
  have hr := toDbDict_ok_eq m opts r hdd
  subst hr
  have hfil' : ¬(opts.ignoreUnchanged = true ∧ ¬m.isFieldUnchanged f.name = true) := by
    rintro ⟨h1, h2⟩
    exact h2 (hfil h1)
  have hemits := fieldEmits_eq_of_ok m opts f v hex hfil' hok
  have hmpr : (v ≠ Val.vnone ∨ ¬opts.ignoreDefaultNone = true ∨
      m.isFieldUnchanged f.name = true) → (f.dbColumnName, v) ∈
        emitsFold m opts m.meta.fieldList [] := by
    intro hc
    have hsome : fieldEmits m opts f = some v := by
      rw [hemits, if_pos hc]
    exact emitsFold_mem_of_emits m opts _ [] f v hf hsome hnd
  refine ⟨⟨?_, hmpr⟩, ?_⟩
  · intro hmem
    rcases emitsFold_mem_source m opts _ [] _ hmem with h | ⟨g, hg, hcol, hgem⟩
    · cases h
    · have hgf : g = f := List.inj_on_of_nodup_map hnd hg hf hcol.symm
      subst hgf
      rw [hemits] at hgem
      by_cases hc : v ≠ Val.vnone ∨ ¬opts.ignoreDefaultNone = true ∨
          m.isFieldUnchanged g.name = true
      · exact hc
      · rw [if_neg hc] at hgem
        cases hgem
  · intro hch
    exact hmpr (Or.inr (Or.inr (isFieldUnchanged_of_mem m f.name hch)))

/-- C5 witness: the explicitly changed `name` field of `c5Entity` is
included in the dump even though its encoded value is absent and both
ignore options are requested. -/
theorem c5_to_db_dict_inclusion_witness :
    ("name", Val.vnone) ∈ c5Dump :=
  (c5_to_db_dict_inclusion c5Entity ⟨true, true⟩ c5NameField Val.vnone c5Dump
    (by decide) (List.mem_cons_self _ _) rfl (fun _ => by decide) rfl rfl).2
    (by decide)

/-- C6: on a cache miss the composed key is
`parent/collectionName/identifier` with the leading separator stripped
(so an empty parent yields `collectionName/identifier` with no leading
separator); the identifier segment is the descriptor-resolved value when
resolution produces a string, and when the identifier cannot be resolved
(absent value, or a required-field error during resolution) the key ends
in the placeholder segment `@temp_doc_id` instead of the computation
failing. -/
theorem c6_key_composition (m : Model) (hnc : m.keyCache.getD "" = "") :
    m.key = stripLeadingSlash (mkKey3 m.parent m.collectionName m.idSeg) ∧
    (∀ s : String,
      m.meta.idField.getValue (m.getattr m.meta.idName) {} = .ok (Val.vstr s) →
      m.idSeg = s) ∧
    (m.parent = "" →
      m.key = String.mk (m.collectionName.data ++ '/' :: m.idSeg.data)) ∧
    (m.idResolvable = false →
      m.idSeg = "@temp_doc_id" ∧
      ∃ pre, m.key.data = pre ++ "@temp_doc_id".data) := by
  have hk := key_of_no_cache m hnc
  refine ⟨hk, fun s hs => idSeg_of_resolved m s hs, ?_, ?_⟩
  · intro hp
    rw [hk, keyCompute_parent_empty m hp]
  · intro hur
    have hseg := idSeg_of_unresolvable m hur
    refine ⟨hseg, ?_⟩
    rw [hk]
    unfold Model.keyCompute
    rw [hseg, mkKey3_data_split]
    exact strip_mk_append_suffix _ _
      (List.append_ne_nil_of_right_ne_nil _ (List.cons_ne_nil _ _))

/-- C6 witness: the never-persisted `c6Entity` with empty parent composes
the placeholder key with no leading separator. -/
theorem c6_key_composition_witness :
    c6Entity.key = "users/@temp_doc_id" :=
  (c6_key_composition c6Entity rfl).2.2.1 rfl

/-- C7 counterexample: a non-stored column-name load
(`stored=false, by_column_name=true`, as `from_dict` performs) of a
registry-resolved extra column makes the attribute accessible on the
instance but does not record it in the extra-attribute set: the tracking
claimed for every resolved extra field happens only on the stored-load
path. -/
theorem c7_population_counterexample :
    (c7Entity.populateFromDocDict c7Doc false false true).map
        (fun m' => (lookupPair m'.attrs "nick", m'.extraFields)) =
      Except.ok (some (Val.vstr "N"), []) :=
  rfl

/-- C7 (amended): population fails with the unknown-fields error naming
the offending keys exactly when the incoming dict has keys outside the
declared schema and column-name lookup was not requested; under
column-name lookup it always succeeds, every registry-resolved extra
field whose column is present in the dict becomes accessible on the
instance, and on a stored load a non-schema extra field is additionally
tracked in the extra-attribute set (a non-stored load leaves it
accessible but untracked). -/
theorem c7_unknown_fields_strictness :
    (∀ (m : Model) (doc : List (String × Val)) (s mg b : Bool),
      unknownKeys m doc ≠ [] → b = false →
      m.populateFromDocDict doc s mg b =
        .error (.unknownFields (unknownKeys m doc))) ∧
    (∀ (m : Model) (doc : List (String × Val)) (s mg b : Bool),
      (unknownKeys m doc = [] ∨ b = true) →
      (m.populateFromDocDict doc s mg b).isOk = true) ∧
    (∀ (m : Model) (doc : List (String × Val)) (s mg : Bool) (m' : Model)
      (k : String) (f : Field),
      m.populateFromDocDict doc s mg true = .ok m' →
      k ∈ unknownKeys m doc →
      m.meta.getFieldByColumnName k = some f →
      (lookupPair doc f.dbColumnName).isSome = true →
      (lookupPair m'.attrs f.name).isSome = true ∧
      (s = true → f.name ≠ "_id" → f.name ∉ m.meta.declaredNames →
        f.name ∈ m'.extraFields)) := by
  refine ⟨?_, ?_, ?_⟩
  · intro m doc s mg b h1 h2
    exact populate_error_of m doc s mg b ⟨h1, by simp [h2]⟩
  · intro m doc s mg b h
    have hng : ¬(unknownKeys m doc ≠ [] ∧ ¬b = true) := by
      rcases h with h | h
      · rintro ⟨h1, _⟩; exact h1 h
      · rintro ⟨_, h2⟩; exact h2 h
    rw [populate_ok_of m doc s mg b hng]
    rfl
  · intro m doc s mg m' k f hpop hk hreg hdoc
    have hm' := populate_ok_elim m doc s mg true m' hpop
    subst hm'
    have hfmem : f ∈ (populatePrologue m mg).meta.fieldList ++ resolvedExtraFields m doc :=
      List.mem_append_right _ (mem_resolvedExtraFields m doc k f hk hreg)
    constructor
    · rw [attrs_populateOk]
      show (lookupPair (populateFold m doc s mg true).attrs f.name).isSome = true
      refine @foldl_establish_inv Field (fun _ => True)
        (fun x => (lookupPair x.attrs f.name).isSome = true)
        (populateStep s mg true doc) f (fun _ _ _ => trivial) ?_ ?_ _ _ trivial hfmem
      · intro acc _
        rw [populateStep_assigns s mg doc acc f hdoc]
        cases hs : s
        · rw [if_neg (by simp), attrs_setattrM, lookupPair_setPair, if_pos rfl]
          rfl
        · rw [if_pos rfl, attrs_setOrigAttr, lookupPair_setPair, if_pos rfl]
          rfl
      · intro acc g hacc
        exact populateStep_attrs_isSome_mono s mg true doc acc g f.name hacc
    · intro hs hid hnotdecl
      subst hs
      rw [extraFields_populateOk]
      show f.name ∈ (populateFold m doc true mg true).extraFields
      refine @foldl_establish_inv Field (fun x => x.meta = m.meta)
        (fun x => f.name ∈ x.extraFields)
        (populateStep true mg true doc) f ?_ ?_ ?_ _ _
        (meta_populatePrologue m mg) hfmem
      · intro acc g hacc
        rw [populateStep_meta]
        exact hacc
      · intro acc hacc
        rw [populateStep_assigns true mg doc acc f hdoc, if_pos rfl,
          extraFields_setOrigAttr, if_pos ⟨hid, by rw [hacc]; exact hnotdecl⟩]
        exact mem_insertStr_self _ _
      · intro acc g hacc
        exact populateStep_extraFields_mono true mg true doc acc g f.name hacc

/-- C7 witness: strict population of an unknown key fails naming it;
column-name population of `c7Doc` succeeds; after the stored column-name
load the resolved extra field is accessible and tracked. -/
theorem c7_unknown_fields_strictness_witness :
    c7Entity.populateFromDocDict [("bogus", Val.vstr "b")] false false false =
      Except.error (.unknownFields ["bogus"]) ∧
    (c7Entity.populateFromDocDict c7Doc false false true).isOk = true ∧
    (lookupPair c7Stored.attrs "nick").isSome = true ∧
    "nick" ∈ c7Stored.extraFields := by
  have h := c7_unknown_fields_strictness
  have h3 := h.2.2 c7Entity c7Doc true false c7Stored "nick" c7NickField rfl
    (by decide) rfl rfl
  exact ⟨h.1 c7Entity [("bogus", Val.vstr "b")] false false false (by decide) rfl,
    h.2.1 c7Entity c7Doc false false true (Or.inr rfl),
    h3.1, h3.2 rfl (by decide) (by decide)⟩

end FireO
